import Mathlib

/-!
Verification of the recap repository's aggregation / normalization core.

The Python source is shallowly embedded: pure functions become Lean
functions, Python dicts become insertion-ordered association lists,
`try/except` control flow becomes `Except`/`Option`, and machine integers
become `Nat`/`Int` (Python ints are unbounded, so no wrap-around is
modelled).  Rational numbers stand in for the exact arithmetic of the
quantities involved (every division in the embedded code is by a constant
such as 60 or 3600 applied to integer inputs).

Part 1 contains all definitions, part 2 all theorems.
-/

/-! ### Part 1: definitions -/

/-- First-occurrence deduplication.  Deterministic stand-in for Python's
iteration over a set built from a list: within one process Python set
iteration is deterministic, and nothing verified below depends on which
deterministic order is chosen. -/
def dedupFirst {α : Type} [DecidableEq α] : List α → List α
  | [] => []
  | x :: xs => x :: (dedupFirst xs).filter (fun y => y ≠ x)

/-- Insert x into a sorted list, after every element that may precede it
(le y x), so that runs of tied elements keep their arrival order. -/
def insertSorted {α : Type} (le : α → α → Bool) (x : α) : List α → List α
  | [] => [x]
  | y :: ys => if le y x then y :: insertSorted le x ys else x :: y :: ys

/-- Stable sort by a total Boolean preorder: Python's list.sort / sorted
(which are stable) are modelled by left-to-right insertion, which yields
the same list as any stable sort of the same comparator. -/
def stableSort {α : Type} (le : α → α → Bool) (l : List α) : List α :=
  l.foldl (fun acc x => insertSorted le x acc) []

/-- Python dict lookup d.get(k): first binding of k, if any. -/
def lookupA {κ β : Type} [DecidableEq κ] : List (κ × β) → κ → Option β
  | [], _ => none
  | (k0, v) :: rest, k => if k0 = k then some v else lookupA rest k

/-- Python dict assignment d[k] = v: overwrite the binding of k in place,
otherwise append the new binding (insertion order preserved). -/
def setAssoc {κ β : Type} [DecidableEq κ] : List (κ × β) → κ → β → List (κ × β)
  | [], k, v => [(k, v)]
  | (k0, v0) :: rest, k, v =>
    if k0 = k then (k0, v) :: rest else (k0, v0) :: setAssoc rest k v

/-- Python dict accumulation d[k] = d.get(k, 0) + v. -/
def addAssoc {κ β : Type} [DecidableEq κ] [Add β] :
    List (κ × β) → κ → β → List (κ × β)
  | [], k, v => [(k, v)]
  | (k0, v0) :: rest, k, v =>
    if k0 = k then (k0, v0 + v) :: rest else (k0, v0) :: addAssoc rest k v

/-- Python defaultdict access-and-mutate d[k] = f(d[k]), where a missing
key first receives the default value. -/
def updAssoc {κ β : Type} [DecidableEq κ] :
    List (κ × β) → κ → β → (β → β) → List (κ × β)
  | [], k, dflt, f => [(k, f dflt)]
  | (k0, v) :: rest, k, dflt, f =>
    if k0 = k then (k0, f v) :: rest else (k0, v) :: updAssoc rest k dflt f

/-- Sum of the values of an association list (sum of a dict's values). -/
def valuesSum {κ β : Type} [AddCommMonoid β] (m : List (κ × β)) : β :=
  (m.map Prod.snd).sum

/-!
## Time normalization (spec §4.3)

Modelled from the spec: the increment-based `normalize_daily_hours`
(entries, daily budget in minutes, rounding increment) exercised by
tests/test_cli.py through recap.cli is not present under src/ (the
tempo_sync variant takes no increment argument), so the per-date
algorithm is built here from the spec's §4.3 steps 1-5: proportional
share, round half-up to an increment multiple, clamp a zero rounding
result up to one increment, then hand the entire remainder to the first
entry holding the largest rounded value.
-/

/-- Round a rational to the nearest integer, halves upward (spec step 3). -/
def roundHalfUp (x : ℚ) : ℤ := ⌊x + 1 / 2⌋

/-- Round to the nearest multiple of the increment r, halves upward. -/
def roundToIncrement (r : ℕ) (x : ℚ) : ℤ := (r : ℤ) * roundHalfUp (x / (r : ℚ))

/-- Spec steps 2-3 for one entry: proportional raw share
original / total * budget rounded to an increment multiple, a zero
result clamped up to one increment. -/
def roundedShare (budget incr total orig : ℕ) : ℤ :=
  if roundToIncrement incr ((orig : ℚ) / (total : ℚ) * (budget : ℚ)) = 0
  then (incr : ℤ)
  else roundToIncrement incr ((orig : ℚ) / (total : ℚ) * (budget : ℚ))

/-- Index of the first occurrence of the maximum (spec step 5 tie rule:
first entry wins).  Returns 0 on the empty list. -/
def firstMaxIdx (l : List ℤ) : ℕ :=
  match l.max? with
  | none => 0
  | some m => l.indexOf m

/-- Add c to the element at index j (identity when j is out of range). -/
def addAt : List ℤ → ℕ → ℤ → List ℤ
  | [], _, _ => []
  | x :: xs, 0, c => (x + c) :: xs
  | x :: xs, n + 1, c => x :: addAt xs n c

/-- Spec §4.3 steps 2-5 applied to one date bucket of original minutes:
round every proportional share, then add the whole remainder
(budget minus the rounded sum) onto the first largest rounded value. -/
def normalizeBucket (budget incr : ℕ) (os : List ℕ) : List ℤ :=
  addAt (os.map (roundedShare budget incr os.sum))
    (firstMaxIdx (os.map (roundedShare budget incr os.sum)))
    ((budget : ℤ) - (os.map (roundedShare budget incr os.sum)).sum)

/-- One entry of the normalizer's input: a calendar date and the entry's
original minutes. -/
structure TEntry where
  date : String
  minutes : ℕ
deriving DecidableEq, Repr

/-- The original minutes of one date's entries, in input order
(spec §4.3: entries are first partitioned by calendar date). -/
def bucketMinutes (es : List TEntry) (d : String) : List ℕ :=
  (es.filter (fun e => e.date = d)).map (fun e => e.minutes)

/-- Normalized minutes assigned to one date's entries, in input order.
Spec step 1: a date whose original minutes sum to zero is skipped and its
entries receive no normalized value (`none`). -/
def normalizeDate (budget incr : ℕ) (es : List TEntry) (d : String) :
    Option (List ℤ) :=
  if (bucketMinutes es d).sum = 0 then none
  else some (normalizeBucket budget incr (bucketMinutes es d))

/-- Kernel-computable (pure natural-number) form of `roundedShare`;
proved equal to it in `roundedShare_eq_run`. -/
def roundedShareRun (budget incr total orig : ℕ) : ℕ :=
  if incr * ((2 * (orig * budget) + total * incr) / (2 * (total * incr))) = 0 then incr
  else incr * ((2 * (orig * budget) + total * incr) / (2 * (total * incr)))

/-!
## Aggregation (src/src/worklog_helper/worklog_helper.py)

`WorkSession`, `DailyProjectEntry`, `ProjectSummary`, `WeeklyWorklog` and
`WeeklyWorklog.get_project_summaries` are translated directly.  Python
datetimes are modelled as epoch seconds (`ℕ`); a `defaultdict` grouping
becomes iteration over first-occurrence keys with filtering, which
produces the same key order (insertion order) and the same per-key
session order as the Python loops.
-/

/-- worklog_helper.WorkSession. -/
structure WorkSession where
  project_path : String
  project_name : String
  session_id : String
  start_time : ℕ
  end_time : ℕ
  duration_minutes : ℕ
  date : String
  summary : List String
  todos : List String
  jira_id : Option String
deriving DecidableEq, Repr

/-- worklog_helper.DailyProjectEntry. -/
structure DailyProjectEntry where
  date : String
  minutes : ℕ
  todos : List String
  summaries : List String
deriving DecidableEq, Repr

/-- worklog_helper.ProjectSummary. -/
structure ProjectSummary where
  project_name : String
  project_path : String
  total_minutes : ℕ
  daily_entries : List DailyProjectEntry
  jira_id : Option String
deriving DecidableEq, Repr

/-- worklog_helper.WeeklyWorklog (data fields). -/
structure WeeklyWorklog where
  start_date : String
  end_date : String
  sessions : List WorkSession
deriving DecidableEq, Repr

/-- WeeklyWorklog.total_minutes. -/
def WeeklyWorklog.total_minutes (w : WeeklyWorklog) : ℕ :=
  (w.sessions.map (fun s => s.duration_minutes)).sum

/-- The sessions of one project, in input order (defaultdict grouping). -/
def sessionsFor (ss : List WorkSession) (pn : String) : List WorkSession :=
  ss.filter (fun s => s.project_name = pn)

/-- The sessions of one date, in input order (inner defaultdict grouping). -/
def sessionsOnDate (ss : List WorkSession) (d : String) : List WorkSession :=
  ss.filter (fun s => s.date = d)

/-- The body of the inner date loop of get_project_summaries: collapse one
(project, date) group into a DailyProjectEntry.  `list(set(all_todos))` is
modelled as first-occurrence deduplication. -/
def mkDailyEntry (ds : List WorkSession) (d : String) : DailyProjectEntry :=
  { date := d
    minutes := (ds.map (fun s => s.duration_minutes)).sum
    todos := (dedupFirst (ds.flatMap (fun s => s.todos))).take 5
    summaries := (ds.flatMap (fun s => s.summary)).take 3 }

/-- The body of the outer project loop of get_project_summaries. -/
def mkProjectSummary (ss : List WorkSession) (pn : String) : ProjectSummary :=
  { project_name := pn
    project_path := ((sessionsFor ss pn).head?.map (fun s => s.project_path)).getD ""
    total_minutes := ((sessionsFor ss pn).map (fun s => s.duration_minutes)).sum
    daily_entries :=
      (dedupFirst ((sessionsFor ss pn).map (fun s => s.date))).map
        (fun d => mkDailyEntry (sessionsOnDate (sessionsFor ss pn) d) d)
    jira_id := ((sessionsFor ss pn).head?.map (fun s => s.jira_id)).getD none }

/-- WeeklyWorklog.get_project_summaries: group by project name, then by
date, and sort by total minutes descending (Python's stable sort with
reverse=True becomes a stable merge sort with the flipped comparator). -/
def WeeklyWorklog.get_project_summaries (w : WeeklyWorklog) : List ProjectSummary :=
  stableSort (fun a b => b.total_minutes ≤ a.total_minutes)
    ((dedupFirst (w.sessions.map (fun s => s.project_name))).map
      (fun pn => mkProjectSummary w.sessions pn))

/-!
## Transcript extraction (ClaudeSessionParser._parse_session_file_range)

A line of a session file is abstracted by its parse outcome: `corrupt`
(json.loads raises and the inner except skips the line), `noTimestamp`
(JSON object without a timestamp field, skipped), `badTimestamp`
(timestamp present but datetime.fromisoformat raises — or the value is
not a string, so .replace raises; either lands in the outer except which
returns []), or a well-formed `record`.  A record keeps exactly the
fields the loop consumes; message eligibility filtering (length, prose
marker) is folded into whether `userMsg` is present.  Timestamps are
epoch seconds; the calendar date of a timestamp is modelled as its day
number, rendered to a string key. -/
structure TRecord where
  ts : ℕ
  cwd : Option String
  userMsg : Option String
  completedTodos : List String
deriving DecidableEq, Repr

/-- One line of a session file, by parse outcome. -/
inductive TLine where
  | corrupt : TLine
  | noTimestamp : TLine
  | badTimestamp : TLine
  | record : TRecord → TLine
deriving DecidableEq, Repr

/-- Calendar date of a timestamp, as a day number. -/
def dateKey (ts : ℕ) : ℕ := ts / 86400

/-- One date bucket being accumulated for a session file. -/
structure DayData where
  timestamps : List ℕ
  todos : List String
  messages : List String
  project_path : String
deriving DecidableEq, Repr

/-- The defaultdict default for a date bucket. -/
def emptyDayData : DayData := ⟨[], [], [], ""⟩

/-- Fold one in-range record into its date bucket: append the timestamp,
set the project path if still empty and the record has a cwd, append an
eligible user message, append completed todo labels. -/
def foldRecordIntoDay (r : TRecord) (dd : DayData) : DayData :=
  { timestamps := dd.timestamps ++ [r.ts]
    project_path :=
      match r.cwd with
      | some c => if dd.project_path = "" then c else dd.project_path
      | none => dd.project_path
    messages :=
      match r.userMsg with
      | some msg => dd.messages ++ [msg]
      | none => dd.messages
    todos := dd.todos ++ r.completedTodos }

/-- Process one record: ignore it when its date is out of range,
otherwise update its date bucket. -/
def processRecord (startD endD : ℕ) (byDate : List (ℕ × DayData)) (r : TRecord) :
    List (ℕ × DayData) :=
  if startD ≤ dateKey r.ts ∧ dateKey r.ts ≤ endD then
    updAssoc byDate (dateKey r.ts) emptyDayData (foldRecordIntoDay r)
  else byDate

/-- The per-line loop: corrupt and timestamp-less lines are skipped, a bad
timestamp raises out to the outer except (error), a record updates the
accumulated buckets. -/
def processLines (startD endD : ℕ) :
    List TLine → List (ℕ × DayData) → Except Unit (List (ℕ × DayData))
  | [], acc => .ok acc
  | .corrupt :: rest, acc => processLines startD endD rest acc
  | .noTimestamp :: rest, acc => processLines startD endD rest acc
  | .badTimestamp :: _, _ => .error ()
  | .record r :: rest, acc => processLines startD endD rest (processRecord startD endD acc r)

/-- Day-number key rendered as the session's date string. -/
def dayString (d : ℕ) : String := toString d

/-- Emit one WorkSession from a date bucket, or drop it: buckets without
timestamps and buckets spanning less than 5 minutes yield nothing. -/
def emitSession (projectName sessionId : String) (kv : ℕ × DayData) :
    Option WorkSession :=
  if kv.2.timestamps = [] then none
  else
    if (kv.2.timestamps.max?.getD 0 - kv.2.timestamps.min?.getD 0) / 60 < 5 then none
    else some
      { project_path := kv.2.project_path
        project_name := projectName
        session_id := sessionId
        start_time := kv.2.timestamps.min?.getD 0
        end_time := kv.2.timestamps.max?.getD 0
        duration_minutes := (kv.2.timestamps.max?.getD 0 - kv.2.timestamps.min?.getD 0) / 60
        date := dayString kv.1
        summary := kv.2.messages.take 5
        todos := (dedupFirst kv.2.todos).take 10
        jira_id := none }

/-- ClaudeSessionParser._parse_session_file_range: a raised timestamp
parse lands in the outer except and the whole file yields [], otherwise
every accumulated bucket is emitted or dropped. -/
def parseFileRange (startD endD : ℕ) (projectName sessionId : String)
    (lines : List TLine) : List WorkSession :=
  match processLines startD endD lines [] with
  | .error _ => []
  | .ok byDate => byDate.filterMap (emitSession projectName sessionId)

/-- ClaudeSessionParser.parse_date_range over already-listed session files
(project name, session id, lines), with the final sort by start time. -/
def parseDateRange (startD endD : ℕ)
    (files : List (String × String × List TLine)) : List WorkSession :=
  stableSort (fun a b => a.start_time ≤ b.start_time)
    (files.flatMap (fun f => parseFileRange startD endD f.1 f.2.1 f.2.2))

/-!
## Batched issue-type resolution (src/src/recap/tempo_api.py,
JiraClient.batch_get_issue_types)

The HTTP search is abstracted as a function from a key batch to
`Option` (an association of returned issue keys to type names): `none`
models the request raising, caught by the per-batch except.
-/

/-- Structural worker for `chunks50`: the fuel only bounds the number of
iterations and is always called with at least the list's length. -/
def chunksGo : ℕ → List String → List (List String)
  | _, [] => []
  | 0, _ :: _ => []
  | fuel + 1, x :: xs => ((x :: xs).take 50) :: chunksGo fuel ((x :: xs).drop 50)

/-- Consecutive batches of at most 50 keys
(for i in range(0, len(issue_keys), batch_size)). -/
def chunks50 (l : List String) : List (List String) := chunksGo l.length l

/-- One batch: on success record every returned (key, type name) pair; on
a raised query mark every not-yet-resolved key of the batch "Unknown". -/
def resolveBatch (search : List String → Option (List (String × String)))
    (result : List (String × String)) (batch : List String) :
    List (String × String) :=
  match search batch with
  | some issues => issues.foldl (fun r kv => setAssoc r kv.1 kv.2) result
  | none => batch.foldl (fun r k => if (lookupA r k).isSome then r else r ++ [(k, "Unknown")]) result

/-- JiraClient.batch_get_issue_types. -/
def batch_get_issue_types (search : List String → Option (List (String × String)))
    (issue_keys : List String) : List (String × String) :=
  if issue_keys = [] then []
  else (chunks50 issue_keys).foldl (resolveBatch search) []

/-!
## Team report generation (src/src/recap/team.py)

Roster resolution and the roster-cache write-back (generate_report steps
before the member loop) are external collaborators; the member list is
taken as an input.  The remote fetch of one member's worklogs is a
function into `Except` (error = the per-member try/except fires), and the
issue search is the same abstraction used by `batch_get_issue_types`.
The progress callback is observational only and is omitted. -/
structure TeamMemberInfo where
  account_id : String
  display_name : String
  email : String
deriving DecidableEq, Repr

/-- One remote worklog dict, reduced to the fields the code consumes:
wl.get("issue", {}).get("key") (absent key modelled as none),
wl.get("startDate", ...), wl.get("timeSpentSeconds", 0),
wl.get("description", ""). -/
structure RawWorklog where
  issue_key : Option String
  startDate : String
  timeSpentSeconds : ℤ
  description : String
deriving DecidableEq, Repr

/-- team.WorklogEntry. -/
structure WorklogEntry where
  issue_key : String
  issue_type : String
  date : String
  time_spent_seconds : ℤ
  description : String
  author_id : String
  author_name : String
deriving DecidableEq, Repr

/-- team.MemberWorklogSummary. -/
structure MemberWorklogSummary where
  member : TeamMemberInfo
  total_seconds : ℤ
  entries : List WorklogEntry
  by_issue_type : List (String × ℤ)
  by_date : List (String × ℤ)
  by_issue : List (String × ℤ)
deriving DecidableEq, Repr

/-- MemberWorklogSummary.total_hours. -/
def MemberWorklogSummary.total_hours (s : MemberWorklogSummary) : ℚ :=
  (s.total_seconds : ℚ) / 3600

/-- team.TeamReportData (data fields). -/
structure TeamReportData where
  team_name : String
  jira_group : String
  start_date : String
  end_date : String
  generated_at : String
  members : List MemberWorklogSummary
deriving DecidableEq, Repr

/-- TeamReportData.total_hours: sum of member seconds, divided once. -/
def TeamReportData.total_hours (r : TeamReportData) : ℚ :=
  (((r.members.map (fun m => m.total_seconds)).sum : ℤ) : ℚ) / 3600

/-- TeamReportData.by_issue_type_total. -/
def TeamReportData.by_issue_type_total (r : TeamReportData) : List (String × ℚ) :=
  r.members.foldl
    (fun totals m =>
      m.by_issue_type.foldl (fun t kv => addAssoc t kv.1 ((kv.2 : ℚ) / 3600)) totals)
    []

/-- TeamReportData.by_date_total. -/
def TeamReportData.by_date_total (r : TeamReportData) : List (String × ℚ) :=
  r.members.foldl
    (fun totals m =>
      m.by_date.foldl (fun t kv => addAssoc t kv.1 ((kv.2 : ℚ) / 3600)) totals)
    []

/-- The body of the _process_member_worklogs loop for one worklog dict. -/
def processOneWorklog (cache : List (String × String)) (member : TeamMemberInfo)
    (s : MemberWorklogSummary) (wl : RawWorklog) : MemberWorklogSummary :=
  { s with
    entries := s.entries ++
      [{ issue_key := wl.issue_key.getD "Unknown"
         issue_type := (lookupA cache (wl.issue_key.getD "Unknown")).getD "Unknown"
         date := wl.startDate.take 10
         time_spent_seconds := wl.timeSpentSeconds
         description := wl.description
         author_id := member.account_id
         author_name := member.display_name }]
    total_seconds := s.total_seconds + wl.timeSpentSeconds
    by_issue_type := addAssoc s.by_issue_type
      ((lookupA cache (wl.issue_key.getD "Unknown")).getD "Unknown") wl.timeSpentSeconds
    by_date := addAssoc s.by_date (wl.startDate.take 10) wl.timeSpentSeconds
    by_issue := addAssoc s.by_issue (wl.issue_key.getD "Unknown") wl.timeSpentSeconds }

/-- TeamReportGenerator._process_member_worklogs. -/
def processMemberWorklogs (cache : List (String × String)) (member : TeamMemberInfo)
    (worklogs : List RawWorklog) : MemberWorklogSummary :=
  worklogs.foldl (processOneWorklog cache member) ⟨member, 0, [], [], [], []⟩

/-- The mutable generator state surviving between generate_report calls:
self._issue_type_cache, initialised empty in TeamReportGenerator.__init__. -/
structure GenState where
  issue_type_cache : List (String × String)
deriving DecidableEq, Repr

/-- TeamReportGenerator.__init__ (the cache it creates). -/
def initGenState : GenState := ⟨[]⟩

/-- Python set.add on an insertion-ordered key list. -/
def addKey (ks : List String) (k : String) : List String :=
  if k ∈ ks then ks else ks ++ [k]

/-- The per-member fetch loop of generate_report: build the
member_worklogs dict (a failed fetch stores []) and collect the issue
keys of successfully fetched worklogs. -/
def fetchStep (fetch : String → Except Unit (List RawWorklog))
    (acc : List (String × List RawWorklog) × List String) (m : TeamMemberInfo) :
    List (String × List RawWorklog) × List String :=
  match fetch m.account_id with
  | .ok wls =>
    (setAssoc acc.1 m.account_id wls,
      wls.foldl (fun ks wl => match wl.issue_key with
        | some k => addKey ks k
        | none => ks) acc.2)
  | .error _ => (setAssoc acc.1 m.account_id [], acc.2)

/-- member_worklogs and all_issue_keys after the fetch loop. -/
def memberWorklogsAndKeys (fetch : String → Except Unit (List RawWorklog))
    (members : List TeamMemberInfo) :
    List (String × List RawWorklog) × List String :=
  members.foldl (fetchStep fetch) ([], [])

/-- self._issue_type_cache.update(issue_types). -/
def updCache (cache new : List (String × String)) : List (String × String) :=
  new.foldl (fun c kv => setAssoc c kv.1 kv.2) cache

/-- TeamReportGenerator.generate_report, from the member fetch loop on:
fetch every member's worklogs (per-member failures caught), batch-resolve
issue types for the collected keys, merge them into the instance cache,
summarize every member against that cache, and sort by total seconds
descending.  Returns the report and the generator state left behind. -/
def generateReport (st : GenState)
    (team_name jira_group start_date end_date generated_at : String)
    (members : List TeamMemberInfo)
    (fetch : String → Except Unit (List RawWorklog))
    (search : List String → Option (List (String × String))) :
    TeamReportData × GenState :=
  (⟨team_name, jira_group, start_date, end_date, generated_at,
    (members.map (fun m =>
      processMemberWorklogs
        (updCache st.issue_type_cache
          (batch_get_issue_types search (memberWorklogsAndKeys fetch members).2))
        m
        ((lookupA (memberWorklogsAndKeys fetch members).1 m.account_id).getD [])))
      |> stableSort (fun a b => b.total_seconds ≤ a.total_seconds)⟩,
   ⟨updCache st.issue_type_cache
      (batch_get_issue_types search (memberWorklogsAndKeys fetch members).2)⟩)

/-! ### Part 2: theorems -/

theorem valuesSum_addAssoc {κ β : Type} [DecidableEq κ] [AddCommMonoid β]
    (m : List (κ × β)) (k : κ) (v : β) :
    valuesSum (addAssoc m k v) = valuesSum m + v := by
  induction m with
  | nil => simp [addAssoc, valuesSum]
  | cons p rest ih =>
    obtain ⟨k0, v0⟩ := p
    by_cases h : k0 = k
    · simp [addAssoc, h, valuesSum, add_assoc, add_comm, add_left_comm]
    · simp only [addAssoc, h, if_false, valuesSum, List.map_cons, List.sum_cons] at ih ⊢
      rw [ih, add_assoc]

theorem lookupA_setAssoc_self {κ β : Type} [DecidableEq κ]
    (m : List (κ × β)) (k : κ) (v : β) :
    lookupA (setAssoc m k v) k = some v := by
  induction m with
  | nil => simp [setAssoc, lookupA]
  | cons p rest ih =>
    obtain ⟨k0, v0⟩ := p
    by_cases hk : k0 = k
    · subst hk; simp [setAssoc, lookupA]
    · simp [setAssoc, hk, lookupA, ih]

theorem lookupA_setAssoc_ne {κ β : Type} [DecidableEq κ]
    (m : List (κ × β)) (k k2 : κ) (v : β) (h : k2 ≠ k) :
    lookupA (setAssoc m k v) k2 = lookupA m k2 := by
  induction m with
  | nil =>
    have hne : ¬ k = k2 := fun hc => h hc.symm
    simp [setAssoc, lookupA, hne]
  | cons p rest ih =>
    obtain ⟨k0, v0⟩ := p
    by_cases hk : k0 = k
    · subst hk
      have hne : ¬ k0 = k2 := fun hc => h hc.symm
      simp [setAssoc, lookupA, hne]
    · by_cases h2 : k0 = k2
      · subst h2
        simp [setAssoc, hk, lookupA]
      · simp [setAssoc, hk, lookupA, h2, ih]

theorem addAt_sum (l : List ℤ) (j : ℕ) (c : ℤ) (h : j < l.length) :
    (addAt l j c).sum = l.sum + c := by
  induction l generalizing j with
  | nil => simp at h
  | cons x xs ih =>
    cases j with
    | zero => simp [addAt]; ring
    | succ n =>
      simp only [addAt, List.sum_cons]
      rw [ih n (by simpa using h)]
      ring

theorem addAt_getD_ne (l : List ℤ) (j : ℕ) (c : ℤ) (i : ℕ) (h : i ≠ j) :
    (addAt l j c).getD i 0 = l.getD i 0 := by
  induction l generalizing i j with
  | nil => simp [addAt]
  | cons x xs ih =>
    cases j with
    | zero =>
      cases i with
      | zero => exact absurd rfl h
      | succ m => simp [addAt]
    | succ n =>
      cases i with
      | zero => simp [addAt]
      | succ m =>
        simp only [addAt, List.getD_cons_succ]
        exact ih n m (fun hc => h (by rw [hc]))

theorem addAt_mem (l : List ℤ) (j : ℕ) (c : ℤ) (x : ℤ) (hx : x ∈ addAt l j c) :
    x ∈ l ∨ x = l.getD j 0 + c := by
  induction l generalizing j with
  | nil => simp [addAt] at hx
  | cons y ys ih =>
    cases j with
    | zero =>
      simp only [addAt, List.mem_cons] at hx
      rcases hx with h | h
      · exact Or.inr (by simpa using h)
      · exact Or.inl (List.mem_cons_of_mem _ h)
    | succ n =>
      simp only [addAt, List.mem_cons] at hx
      rcases hx with h | h
      · exact Or.inl (by simp [h])
      · rcases ih n h with h2 | h2
        · exact Or.inl (List.mem_cons_of_mem _ h2)
        · exact Or.inr (by simpa using h2)

theorem firstMaxIdx_lt (l : List ℤ) (h : l ≠ []) : firstMaxIdx l < l.length := by
  unfold firstMaxIdx
  match hm : l.max? with
  | none => exact absurd (List.max?_eq_none_iff.mp hm) h
  | some m =>
    have hmem : m ∈ l := List.max?_mem (fun a b => max_choice a b) hm
    simpa using List.indexOf_lt_length.mpr hmem

theorem roundedShare_nonneg_div (budget incr total orig : ℕ) :
    (incr : ℤ) ∣ roundedShare budget incr total orig ∧
      0 ≤ roundedShare budget incr total orig := by
  unfold roundedShare
  by_cases hz : roundToIncrement incr ((orig : ℚ) / (total : ℚ) * (budget : ℚ)) = 0
  · simp only [if_pos hz]
    exact ⟨dvd_refl _, Int.ofNat_nonneg incr⟩
  · simp only [if_neg hz]
    unfold roundToIncrement
    refine ⟨Dvd.intro _ rfl, ?_⟩
    have hfloor : 0 ≤ roundHalfUp ((orig : ℚ) / (total : ℚ) * (budget : ℚ) / (incr : ℚ)) := by
      unfold roundHalfUp
      apply Int.le_floor.mpr
      push_cast
      positivity
    positivity

theorem roundedShare_ge (budget incr total orig : ℕ) (hR : 0 < incr) :
    (incr : ℤ) ≤ roundedShare budget incr total orig := by
  obtain ⟨⟨k, hk⟩, hnn⟩ := roundedShare_nonneg_div budget incr total orig
  by_cases h0 : roundedShare budget incr total orig = 0
  · exfalso
    unfold roundedShare at h0
    by_cases hz : roundToIncrement incr ((orig : ℚ) / (total : ℚ) * (budget : ℚ)) = 0
    · rw [if_pos hz] at h0
      have : incr = 0 := by exact_mod_cast h0
      omega
    · rw [if_neg hz] at h0
      exact hz h0
  · have hkpos : 0 < k := by
      by_contra hneg
      push_neg at hneg
      rcases lt_or_eq_of_le hneg with h | h
      · have hlt : (incr : ℤ) * k < 0 :=
          mul_neg_of_pos_of_neg (by exact_mod_cast hR) h
        rw [← hk] at hlt
        exact absurd hlt (not_lt.mpr hnn)
      · apply h0; rw [hk, h, mul_zero]
    calc (incr : ℤ) = (incr : ℤ) * 1 := (mul_one _).symm
      _ ≤ (incr : ℤ) * k := by
          apply mul_le_mul_of_nonneg_left (by omega) (by exact_mod_cast Nat.zero_le incr)
      _ = roundedShare budget incr total orig := hk.symm

theorem roundHalfUp_natCast_div (a b : ℕ) :
    roundHalfUp ((a : ℚ) / (b : ℚ)) = ((2 * a + b) / (2 * b) : ℕ) := by
  unfold roundHalfUp
  rcases Nat.eq_zero_or_pos b with hb | hb
  · subst hb
    norm_num
  · have hb0 : (b : ℚ) ≠ 0 := by
      exact_mod_cast Nat.pos_iff_ne_zero.mp hb
    have h : (a : ℚ) / (b : ℚ) + 1 / 2 = ((2 * a + b : ℕ) : ℚ) / ((2 * b : ℕ) : ℚ) := by
      push_cast
      field_simp
      ring
    rw [h, Rat.floor_natCast_div_natCast]
    exact (Int.natCast_div _ _).symm

theorem raw_div_cast (orig total budget incr : ℕ) :
    ((orig : ℚ) / (total : ℚ) * (budget : ℚ)) / (incr : ℚ) =
      ((orig * budget : ℕ) : ℚ) / ((total * incr : ℕ) : ℚ) := by
  push_cast
  rcases Nat.eq_zero_or_pos total with hT | hT
  · simp [hT]
  rcases Nat.eq_zero_or_pos incr with hR | hR
  · simp [hR]
  have hT0 : (total : ℚ) ≠ 0 := by exact_mod_cast Nat.pos_iff_ne_zero.mp hT
  have hR0 : (incr : ℚ) ≠ 0 := by exact_mod_cast Nat.pos_iff_ne_zero.mp hR
  field_simp

theorem roundedShare_eq_run (budget incr total orig : ℕ) :
    roundedShare budget incr total orig = (roundedShareRun budget incr total orig : ℤ) := by
  unfold roundedShare roundedShareRun roundToIncrement
  rw [raw_div_cast, roundHalfUp_natCast_div]
  have hc : ((incr : ℤ) * (((2 * (orig * budget) + total * incr) / (2 * (total * incr)) : ℕ) : ℤ) = 0)
      ↔ (incr * ((2 * (orig * budget) + total * incr) / (2 * (total * incr))) = 0) := by
    constructor
    · intro h; exact_mod_cast h
    · intro h; exact_mod_cast congrArg (Nat.cast : ℕ → ℤ) h
  simp only [hc]
  split_ifs with h <;> push_cast <;> rfl

theorem normalizeBucket_eq_run (budget incr : ℕ) (os : List ℕ) :
    normalizeBucket budget incr os =
      addAt (os.map (fun o => (roundedShareRun budget incr os.sum o : ℤ)))
        (firstMaxIdx (os.map (fun o => (roundedShareRun budget incr os.sum o : ℤ))))
        ((budget : ℤ) - (os.map (fun o => (roundedShareRun budget incr os.sum o : ℤ))).sum) := by
  unfold normalizeBucket
  have h : roundedShare budget incr os.sum = fun o => ((roundedShareRun budget incr os.sum o : ℕ) : ℤ) :=
    funext fun o => roundedShare_eq_run budget incr os.sum o
  rw [h]

/-- C1, amended: for every daily budget, increment, entry list and date
whose entries' original minutes sum to a positive total, normalization
assigns that date's entries values summing exactly to the budget
(spec-modelled normalizer; the all-zero date is skipped, see the
counterexample). -/
theorem normalize_fills_daily_budget (budget incr : ℕ) (es : List TEntry) (d : String)
    (hT : 0 < (bucketMinutes es d).sum) :
    ∃ out, normalizeDate budget incr es d = some out ∧ out.sum = (budget : ℤ) := by
  refine ⟨normalizeBucket budget incr (bucketMinutes es d), ?_, ?_⟩
  · unfold normalizeDate
    rw [if_neg (by omega)]
  · unfold normalizeBucket
    have hne : bucketMinutes es d ≠ [] := by
      intro hc
      rw [hc] at hT
      simp at hT
    have hmapne :
        (bucketMinutes es d).map (roundedShare budget incr (bucketMinutes es d).sum) ≠ [] := by
      simpa using hne
    rw [addAt_sum _ _ _ (firstMaxIdx_lt _ hmapne)]
    ring

/-- C1 counterexample: a date that has one entry, of zero original
minutes, is skipped by normalization (its entries get no normalized
value), so its normalized sum is not the daily budget. -/
theorem normalize_zero_total_day_skipped :
    bucketMinutes [⟨"2025-01-05", 0⟩] "2025-01-05" ≠ [] ∧
      normalizeDate 480 30 [⟨"2025-01-05", 0⟩] "2025-01-05" = none := by
  constructor
  · decide
  · decide

/-- C1 witness: three entries of 120, 180 and 60 minutes on one date with
budget 480 and increment 30 receive normalized minutes summing to 480. -/
theorem normalize_fills_daily_budget_witness :
    0 < (bucketMinutes [⟨"2025-01-05", 120⟩, ⟨"2025-01-05", 180⟩, ⟨"2025-01-05", 60⟩]
        "2025-01-05").sum ∧
      ∃ out, normalizeDate 480 30
          [⟨"2025-01-05", 120⟩, ⟨"2025-01-05", 180⟩, ⟨"2025-01-05", 60⟩] "2025-01-05" =
          some out ∧ out.sum = ((480 : ℕ) : ℤ) :=
  ⟨by decide,
    normalize_fills_daily_budget 480 30
      [⟨"2025-01-05", 120⟩, ⟨"2025-01-05", 180⟩, ⟨"2025-01-05", 60⟩] "2025-01-05" (by decide)⟩

/-- C2, amended: when the increment is positive and divides the budget
and the bucket's original minutes sum to a positive total, every
normalized value is an integer multiple of the increment, and every entry
other than the remainder recipient (the first entry holding the largest
rounded value) keeps its rounded share, which is at least one increment;
the recipient itself can fall below the increment (see counterexample). -/
theorem normalize_values_increment_multiples (budget incr : ℕ) (os : List ℕ)
    (hR : 0 < incr) (hB : incr ∣ budget) (hT : 0 < os.sum) :
    (∀ v ∈ normalizeBucket budget incr os, (incr : ℤ) ∣ v) ∧
      (∀ i, i < os.length →
        i ≠ firstMaxIdx (os.map (roundedShare budget incr os.sum)) →
        (incr : ℤ) ≤ (normalizeBucket budget incr os).getD i 0) := by
  have hne : os ≠ [] := by
    intro hc
    rw [hc] at hT
    simp at hT
  have hmapne : os.map (roundedShare budget incr os.sum) ≠ [] := by simpa using hne
  have hjlt : firstMaxIdx (os.map (roundedShare budget incr os.sum)) <
      (os.map (roundedShare budget incr os.sum)).length := firstMaxIdx_lt _ hmapne
  have hdvd_mem : ∀ v ∈ os.map (roundedShare budget incr os.sum), (incr : ℤ) ∣ v := by
    intro v hv
    obtain ⟨o, _, rfl⟩ := List.mem_map.mp hv
    exact (roundedShare_nonneg_div budget incr os.sum o).1
  constructor
  · intro v hv
    unfold normalizeBucket at hv
    rcases addAt_mem _ _ _ _ hv with h | h
    · exact hdvd_mem v h
    · rw [h]
      apply dvd_add
      · rw [List.getD_eq_getElem _ _ hjlt]
        exact hdvd_mem _ (List.getElem_mem _)
      · apply dvd_sub
        · exact_mod_cast Int.natCast_dvd_natCast.mpr hB
        · exact List.dvd_sum hdvd_mem
  · intro i hi hne2
    unfold normalizeBucket
    rw [addAt_getD_ne _ _ _ _ hne2]
    have hi2 : i < (os.map (roundedShare budget incr os.sum)).length := by simpa using hi
    rw [List.getD_eq_getElem _ _ hi2, List.getElem_map]
    exact roundedShare_ge budget incr os.sum _ hR

/-- C2 counterexample: with budget 480, increment 30 and seventeen
one-minute entries on one day, every share rounds (after clamping) to 30,
oversubscribing the budget; the negative remainder drives the first
(largest, by the tie rule) entry down to 0, which is neither positive nor
at least one increment. -/
theorem normalize_value_can_be_zero :
    (0 : ℤ) ∈ normalizeBucket 480 30 (List.replicate 17 1) ∧ ¬ (0 < (0 : ℤ)) := by
  constructor
  · rw [normalizeBucket_eq_run]
    decide
  · decide

/-- C2 witness: entries of 120, 180 and 60 minutes, budget 480, increment
30: every normalized value is a multiple of 30 and every non-recipient
entry gets at least 30. -/
theorem normalize_values_increment_multiples_witness :
    (0 < 30 ∧ (30 : ℕ) ∣ 480 ∧ 0 < ([120, 180, 60] : List ℕ).sum) ∧
      ((∀ v ∈ normalizeBucket 480 30 [120, 180, 60], ((30 : ℕ) : ℤ) ∣ v) ∧
        (∀ i, i < ([120, 180, 60] : List ℕ).length →
          i ≠ firstMaxIdx (([120, 180, 60] : List ℕ).map
            (roundedShare 480 30 ([120, 180, 60] : List ℕ).sum)) →
          ((30 : ℕ) : ℤ) ≤ (normalizeBucket 480 30 [120, 180, 60]).getD i 0)) :=
  ⟨⟨by decide, by decide, by decide⟩,
    normalize_values_increment_multiples 480 30 [120, 180, 60]
      (by decide) (by decide) (by decide)⟩

theorem emitSession_some_duration (pn sid : String) (kv : ℕ × DayData) (s : WorkSession)
    (h : emitSession pn sid kv = some s) : 5 ≤ s.duration_minutes := by
  unfold emitSession at h
  by_cases h1 : kv.2.timestamps = []
  · rw [if_pos h1] at h
    exact absurd h (by simp)
  · rw [if_neg h1] at h
    by_cases h2 : (kv.2.timestamps.max?.getD 0 - kv.2.timestamps.min?.getD 0) / 60 < 5
    · rw [if_pos h2] at h
      exact absurd h (by simp)
    · rw [if_neg h2] at h
      have hs := Option.some_injective _ h
      rw [← hs]
      exact Nat.not_lt.mp h2

/-- C7: every WorkSession emitted by the transcript extractor lasts at
least 5 minutes, and a date bucket spanning less than 5 minutes
(300 seconds between its extreme timestamps) is silently dropped —
`emitSession` returns `none` for it rather than raising. -/
theorem session_duration_min_threshold :
    (∀ startD endD pn sid lines (s : WorkSession),
        s ∈ parseFileRange startD endD pn sid lines → 5 ≤ s.duration_minutes) ∧
      (∀ pn sid (kv : ℕ × DayData),
        kv.2.timestamps.max?.getD 0 - kv.2.timestamps.min?.getD 0 < 300 →
        emitSession pn sid kv = none) := by
  constructor
  · intro startD endD pn sid lines s hs
    unfold parseFileRange at hs
    match hp : processLines startD endD lines [] with
    | .error e => rw [hp] at hs; simp at hs
    | .ok byDate =>
      rw [hp] at hs
      obtain ⟨kv, _, hemit⟩ := List.mem_filterMap.mp hs
      exact emitSession_some_duration pn sid kv s hemit
  · intro pn sid kv hspan
    unfold emitSession
    by_cases h1 : kv.2.timestamps = []
    · rw [if_pos h1]
    · rw [if_neg h1, if_pos (by omega)]

/-- C7 witness: a file whose two records are 600 seconds apart on one day
emits that day's session, and its duration meets the 5-minute minimum. -/
theorem session_duration_min_threshold_witness :
    ((⟨"/p", "p", "s1", 0, 600, 10, "0", [], [], none⟩ : WorkSession) ∈
        parseFileRange 0 10 "p" "s1"
          [TLine.record ⟨0, some "/p", none, []⟩, TLine.record ⟨600, none, none, []⟩]) ∧
      5 ≤ (⟨"/p", "p", "s1", 0, 600, 10, "0", [], [], none⟩ : WorkSession).duration_minutes :=
  ⟨by decide,
    session_duration_min_threshold.1 0 10 "p" "s1"
      [TLine.record ⟨0, some "/p", none, []⟩, TLine.record ⟨600, none, none, []⟩]
      ⟨"/p", "p", "s1", 0, 600, 10, "0", [], [], none⟩ (by decide)⟩

/-- C8: a line whose JSON parse fails is skipped and scanning continues:
deleting the corrupt lines changes nothing, at the accumulator level, for
a whole file, and for a whole date range of files — so a corrupt line
never aborts extraction (in particular a file with one corrupt line
followed by valid lines still yields the valid lines' sessions). -/
theorem corrupt_lines_skipped :
    (∀ startD endD (lines : List TLine) acc,
        processLines startD endD lines acc =
          processLines startD endD (lines.filter (fun l => l ≠ TLine.corrupt)) acc) ∧
      (∀ startD endD pn sid (lines : List TLine),
        parseFileRange startD endD pn sid lines =
          parseFileRange startD endD pn sid (lines.filter (fun l => l ≠ TLine.corrupt))) ∧
      (∀ startD endD (files : List (String × String × List TLine)),
        parseDateRange startD endD files =
          parseDateRange startD endD
            (files.map (fun f => (f.1, f.2.1, f.2.2.filter (fun l => l ≠ TLine.corrupt))))) := by
  have hmain : ∀ startD endD (lines : List TLine) acc,
      processLines startD endD lines acc =
        processLines startD endD (lines.filter (fun l => l ≠ TLine.corrupt)) acc := by
    intro startD endD lines
    induction lines with
    | nil => intro acc; rfl
    | cons l rest ih =>
      intro acc
      cases l with
      | corrupt => simpa [processLines] using ih acc
      | noTimestamp => simpa [processLines] using ih acc
      | badTimestamp => simp [processLines]
      | record r => simpa [processLines] using ih (processRecord startD endD acc r)
  have hfile : ∀ startD endD pn sid (lines : List TLine),
      parseFileRange startD endD pn sid lines =
        parseFileRange startD endD pn sid (lines.filter (fun l => l ≠ TLine.corrupt)) := by
    intro startD endD pn sid lines
    unfold parseFileRange
    rw [hmain]
  refine ⟨hmain, hfile, ?_⟩
  intro startD endD files
  unfold parseDateRange
  congr 1
  induction files with
  | nil => rfl
  | cons f rest ih =>
    simp only [List.flatMap_cons, List.map_cons, ih]
    rw [← hfile]

/-- C9: a record missing its timestamp only skips that record (the loop
continues on the rest with the same accumulator), but a record whose
timestamp is present and unparseable (or not a string) raises out of the
per-line loop into the file-level except: the whole file then yields zero
sessions, discarding buckets already accumulated from earlier valid
records. -/
theorem bad_timestamp_aborts_file :
    (∀ startD endD (rest : List TLine) acc,
        processLines startD endD (TLine.noTimestamp :: rest) acc =
          processLines startD endD rest acc) ∧
      (∀ startD endD pn sid (lines : List TLine),
        TLine.badTimestamp ∈ lines →
        parseFileRange startD endD pn sid lines = []) := by
  constructor
  · intro startD endD rest acc
    rfl
  · have herr : ∀ startD endD (lines : List TLine) acc,
        TLine.badTimestamp ∈ lines →
        processLines startD endD lines acc = .error () := by
      intro startD endD lines
      induction lines with
      | nil => intro acc h; simp at h
      | cons l rest ih =>
        intro acc h
        cases l with
        | corrupt => exact ih acc (by simpa using h)
        | noTimestamp => exact ih acc (by simpa using h)
        | badTimestamp => rfl
        | record r =>
          exact ih (processRecord startD endD acc r) (by simpa using h)
    intro startD endD pn sid lines h
    unfold parseFileRange
    rw [herr startD endD lines [] h]

/-- C9 witness: a valid in-range record followed by a bad-timestamp
record yields no sessions at all — the bucket accumulated from the valid
record is discarded. -/
theorem bad_timestamp_aborts_file_witness :
    TLine.badTimestamp ∈
        [TLine.record ⟨0, some "/p", none, []⟩, TLine.record ⟨600, none, none, []⟩,
          TLine.badTimestamp] ∧
      parseFileRange 0 10 "p" "s1"
        [TLine.record ⟨0, some "/p", none, []⟩, TLine.record ⟨600, none, none, []⟩,
          TLine.badTimestamp] = [] :=
  ⟨by decide,
    bad_timestamp_aborts_file.2 0 10 "p" "s1"
      [TLine.record ⟨0, some "/p", none, []⟩, TLine.record ⟨600, none, none, []⟩,
        TLine.badTimestamp] (by decide)⟩

theorem chunksGo_flatten (fuel : ℕ) :
    ∀ l : List String, l.length ≤ fuel → (chunksGo fuel l).flatten = l := by
  induction fuel with
  | zero =>
    intro l hl
    match l with
    | [] => rfl
    | x :: xs => simp at hl
  | succ fuel ih =>
    intro l hl
    match l with
    | [] => rfl
    | x :: xs =>
      simp only [chunksGo, List.flatten_cons]
      have hlen : ((x :: xs).drop 50).length ≤ fuel := by
        simp only [List.length_drop, List.length_cons]
        simp only [List.length_cons] at hl
        omega
      rw [ih _ hlen]
      exact List.take_append_drop 50 (x :: xs)

theorem chunksGo_mem (fuel : ℕ) :
    ∀ (l : List String) (c : List String), c ∈ chunksGo fuel l →
      c ≠ [] ∧ c.length ≤ 50 := by
  induction fuel with
  | zero =>
    intro l c hc
    match l with
    | [] => simp [chunksGo] at hc
    | x :: xs => simp [chunksGo] at hc
  | succ fuel ih =>
    intro l c hc
    match l with
    | [] => simp [chunksGo] at hc
    | x :: xs =>
      simp only [chunksGo, List.mem_cons] at hc
      rcases hc with h | h
      · subst h
        constructor
        · simp
        · exact List.length_take_le 50 (x :: xs)
      · exact ih _ _ h

theorem chunks50_flatten (l : List String) : (chunks50 l).flatten = l :=
  chunksGo_flatten l.length l le_rfl

theorem lookupA_append {β : Type} (r t : List (String × β)) (k : String) :
    lookupA (r ++ t) k =
      match lookupA r k with
      | some v => some v
      | none => lookupA t k := by
  induction r with
  | nil => simp [lookupA]
  | cons p rest ih =>
    obtain ⟨k0, v0⟩ := p
    by_cases h : k0 = k <;> simp [lookupA, h, ih]

theorem lookupA_foldl_setAssoc_notMem {β : Type} (pairs : List (String × β))
    (acc : List (String × β)) (k : String) (h : k ∉ pairs.map Prod.fst) :
    lookupA (pairs.foldl (fun r kv => setAssoc r kv.1 kv.2) acc) k = lookupA acc k := by
  induction pairs generalizing acc with
  | nil => rfl
  | cons p rest ih =>
    simp only [List.map_cons, List.mem_cons] at h
    push_neg at h
    simp only [List.foldl_cons]
    rw [ih _ h.2]
    exact lookupA_setAssoc_ne acc p.1 k p.2 h.1

theorem lookupA_foldl_setAssoc_eq {β : Type} (pairs : List (String × β))
    (acc : List (String × β)) (k : String) (hnd : (pairs.map Prod.fst).Nodup)
    (hnone : lookupA acc k = none) :
    lookupA (pairs.foldl (fun r kv => setAssoc r kv.1 kv.2) acc) k = lookupA pairs k := by
  induction pairs generalizing acc with
  | nil => simp [lookupA, hnone]
  | cons p rest ih =>
    obtain ⟨k1, t⟩ := p
    simp only [List.map_cons, List.nodup_cons] at hnd
    by_cases h : k1 = k
    · subst h
      simp only [List.foldl_cons, lookupA, if_pos rfl]
      rw [lookupA_foldl_setAssoc_notMem _ _ _ hnd.1]
      exact lookupA_setAssoc_self _ _ _
    · simp only [List.foldl_cons, lookupA, if_neg h]
      rw [ih _ hnd.2]
      rw [lookupA_setAssoc_ne _ _ _ _ (fun hc => h hc.symm)]
      exact hnone

theorem lookupA_unknownFold_preserve (b : List String) (acc : List (String × String))
    (k : String) (v : String) (h : lookupA acc k = some v) :
    lookupA (b.foldl (fun r k0 => if (lookupA r k0).isSome then r
      else r ++ [(k0, "Unknown")]) acc) k = some v := by
  induction b generalizing acc with
  | nil => exact h
  | cons k0 rest ih =>
    simp only [List.foldl_cons]
    apply ih
    by_cases hs : (lookupA acc k0).isSome
    · rw [if_pos hs]; exact h
    · rw [if_neg hs, lookupA_append, h]

theorem lookupA_unknownFold_frame (b : List String) (acc : List (String × String))
    (k : String) (hk : k ∉ b) :
    lookupA (b.foldl (fun r k0 => if (lookupA r k0).isSome then r
      else r ++ [(k0, "Unknown")]) acc) k = lookupA acc k := by
  induction b generalizing acc with
  | nil => rfl
  | cons k0 rest ih =>
    simp only [List.mem_cons] at hk
    push_neg at hk
    simp only [List.foldl_cons]
    rw [ih _ hk.2]
    by_cases hs : (lookupA acc k0).isSome
    · rw [if_pos hs]
    · rw [if_neg hs, lookupA_append]
      match hl : lookupA acc k with
      | some v => rfl
      | none =>
        have : ¬ k0 = k := fun hc => hk.1 hc.symm
        simp [lookupA, this]

theorem lookupA_unknownFold_hit (b : List String) (acc : List (String × String))
    (k : String) (hk : k ∈ b) (hnone : lookupA acc k = none) :
    lookupA (b.foldl (fun r k0 => if (lookupA r k0).isSome then r
      else r ++ [(k0, "Unknown")]) acc) k = some "Unknown" := by
  induction b generalizing acc with
  | nil => simp at hk
  | cons k0 rest ih =>
    simp only [List.foldl_cons]
    by_cases h : k0 = k
    · subst h
      rw [if_neg (by simp [hnone])]
      apply lookupA_unknownFold_preserve
      rw [lookupA_append, hnone]
      simp [lookupA]
    · have hk2 : k ∈ rest := by
        rcases List.mem_cons.mp hk with hc | hc
        · exact absurd hc.symm h
        · exact hc
      apply ih _ hk2
      by_cases hs : (lookupA acc k0).isSome
      · rw [if_pos hs]; exact hnone
      · rw [if_neg hs, lookupA_append, hnone]
        simp [lookupA, h]

theorem resolveBatch_frame (search : List String → Option (List (String × String)))
    (hsub : ∀ b r, search b = some r → (∀ p ∈ r, p.1 ∈ b) ∧ (r.map Prod.fst).Nodup)
    (acc : List (String × String)) (b : List String) (k : String) (hk : k ∉ b) :
    lookupA (resolveBatch search acc b) k = lookupA acc k := by
  unfold resolveBatch
  match hs : search b with
  | some issues =>
    apply lookupA_foldl_setAssoc_notMem
    intro hmem
    obtain ⟨p, hp, hpk⟩ := List.mem_map.mp hmem
    exact hk (hpk ▸ (hsub b issues hs).1 p hp)
  | none => exact lookupA_unknownFold_frame b acc k hk

theorem foldl_resolveBatch_frame (search : List String → Option (List (String × String)))
    (hsub : ∀ b r, search b = some r → (∀ p ∈ r, p.1 ∈ b) ∧ (r.map Prod.fst).Nodup)
    (bs : List (List String)) (acc : List (String × String)) (k : String)
    (hk : ∀ b ∈ bs, k ∉ b) :
    lookupA (bs.foldl (resolveBatch search) acc) k = lookupA acc k := by
  induction bs generalizing acc with
  | nil => rfl
  | cons b rest ih =>
    simp only [List.foldl_cons]
    rw [ih _ (fun b2 h2 => hk b2 (List.mem_cons_of_mem _ h2)),
      resolveBatch_frame search hsub acc b k (hk b (List.mem_cons_self _ _))]

/-- C10: batched issue-type resolution (modelled totally — the per-batch
try/except never lets a failed batch raise): an empty key list yields an
empty dictionary; the keys are partitioned into consecutive nonempty
batches of at most 50; for a duplicate-free key list and a search that
only reports requested keys (each at most once), every key of a batch
whose query raised maps to "Unknown", and a key of a successful batch
maps to exactly what the search returned for it (omitted if the search
returned nothing for it). -/
theorem batch_issue_types_spec (search : List String → Option (List (String × String)))
    (keys : List String) (hnd : keys.Nodup)
    (hsub : ∀ b r, search b = some r → (∀ p ∈ r, p.1 ∈ b) ∧ (r.map Prod.fst).Nodup) :
    (batch_get_issue_types search [] = []) ∧
      ((chunks50 keys).flatten = keys ∧ ∀ c ∈ chunks50 keys, c ≠ [] ∧ c.length ≤ 50) ∧
      (∀ b ∈ chunks50 keys, search b = none →
        ∀ k ∈ b, lookupA (batch_get_issue_types search keys) k = some "Unknown") ∧
      (∀ b ∈ chunks50 keys, ∀ r, search b = some r →
        ∀ k ∈ b, lookupA (batch_get_issue_types search keys) k = lookupA r k) := by
  have hsplit : ∀ b ∈ chunks50 keys, ∀ k ∈ b, ∃ pre post,
      chunks50 keys = pre ++ b :: post ∧
      lookupA (List.foldl (resolveBatch search) [] pre) k = none ∧
      (∀ b2 ∈ post, k ∉ b2) := by
    intro b hb k hk
    obtain ⟨pre, post, hbs⟩ := List.append_of_mem hb
    have hflat : (pre ++ b :: post).flatten.Nodup := by
      rw [← hbs, chunks50_flatten]
      exact hnd
    rw [List.flatten_append, List.flatten_cons] at hflat
    rw [List.nodup_append] at hflat
    have hpre : ∀ b2 ∈ pre, k ∉ b2 := by
      intro b2 h2 hkin
      exact hflat.2.2 (List.mem_flatten.mpr ⟨b2, h2, hkin⟩)
        (List.mem_append.mpr (Or.inl hk))
    have hpost : ∀ b2 ∈ post, k ∉ b2 := by
      have hbp := hflat.2.1
      rw [List.nodup_append] at hbp
      intro b2 h2 hkin
      exact hbp.2.2 hk (List.mem_flatten.mpr ⟨b2, h2, hkin⟩)
    refine ⟨pre, post, hbs, ?_, hpost⟩
    rw [foldl_resolveBatch_frame search hsub pre [] k hpre]
    rfl
  have hne : ∀ b, b ∈ chunks50 keys → keys ≠ [] := by
    intro b hb hkeys
    subst hkeys
    simp [chunks50, chunksGo] at hb
  refine ⟨rfl, ⟨chunks50_flatten keys, fun c hc => chunksGo_mem _ _ _ hc⟩, ?_, ?_⟩
  · intro b hb hfail k hk
    obtain ⟨pre, post, hbs, hnonepre, hpost⟩ := hsplit b hb k hk
    unfold batch_get_issue_types
    rw [if_neg (hne b hb), hbs, List.foldl_append, List.foldl_cons,
      foldl_resolveBatch_frame search hsub post _ k hpost]
    unfold resolveBatch
    rw [hfail]
    exact lookupA_unknownFold_hit b _ k hk hnonepre
  · intro b hb r hok k hk
    obtain ⟨pre, post, hbs, hnonepre, hpost⟩ := hsplit b hb k hk
    unfold batch_get_issue_types
    rw [if_neg (hne b hb), hbs, List.foldl_append, List.foldl_cons,
      foldl_resolveBatch_frame search hsub post _ k hpost]
    unfold resolveBatch
    rw [hok]
    exact lookupA_foldl_setAssoc_eq r _ k (hsub b r hok).2 hnonepre

/-- C10 witness: two keys, both in one batch whose query raises, both map
to "Unknown". -/
theorem batch_issue_types_spec_witness :
    (["PROJ-1", "PROJ-2"] : List String).Nodup ∧
      (∀ b ∈ chunks50 ["PROJ-1", "PROJ-2"],
        (fun (_ : List String) => (none : Option (List (String × String)))) b = none →
        ∀ k ∈ b,
          lookupA (batch_get_issue_types
            (fun (_ : List String) => (none : Option (List (String × String))))
            ["PROJ-1", "PROJ-2"]) k = some "Unknown") :=
  ⟨by decide,
    (batch_issue_types_spec (fun _ => none) ["PROJ-1", "PROJ-2"] (by decide)
      (fun b r hr => by exact absurd hr (by simp))).2.2.1⟩

theorem insertSorted_perm {α : Type} (le : α → α → Bool) (x : α) (l : List α) :
    (insertSorted le x l).Perm (x :: l) := by
  induction l with
  | nil => exact List.Perm.refl _
  | cons y ys ih =>
    unfold insertSorted
    by_cases h : le y x
    · rw [if_pos h]
      exact (ih.cons y).trans (List.Perm.swap x y ys)
    · rw [if_neg h]

theorem stableSort_perm {α : Type} (le : α → α → Bool) (l : List α) :
    (stableSort le l).Perm l := by
  have hgen : ∀ (l acc : List α),
      (l.foldl (fun acc x => insertSorted le x acc) acc).Perm (acc ++ l) := by
    intro l
    induction l with
    | nil => intro acc; simp
    | cons x rest ih =>
      intro acc
      simp only [List.foldl_cons]
      refine (ih (insertSorted le x acc)).trans ?_
      refine (List.Perm.append_right rest (insertSorted_perm le x acc)).trans ?_
      exact List.perm_middle.symm
  simpa using hgen l []

theorem stableSort_mem {α : Type} (le : α → α → Bool) (l : List α) (x : α) :
    x ∈ stableSort le l ↔ x ∈ l :=
  (stableSort_perm le l).mem_iff

/-- C4 counterexample: the issue-type cache survives a generate_report
call.  A first report resolves PROJ-1 to Task; the generator state a
second call starts from still holds that mapping, and a second report
whose own search returns nothing visibly reuses it — the entry built in
the second run carries issue type "Task" (a per-invocation cache would
have produced "Unknown"). -/
theorem issue_type_cache_persists :
    ((generateReport initGenState "t" "g" "2025-01-01" "2025-01-07" "now"
        [⟨"u1", "User", ""⟩]
        (fun _ => .ok [⟨some "PROJ-1", "2025-01-01", 3600, "w"⟩])
        (fun _ => some [("PROJ-1", "Task")])).2.issue_type_cache ≠ []) ∧
      (∃ s ∈ (generateReport
          (generateReport initGenState "t" "g" "2025-01-01" "2025-01-07" "now"
            [⟨"u1", "User", ""⟩]
            (fun _ => .ok [⟨some "PROJ-1", "2025-01-01", 3600, "w"⟩])
            (fun _ => some [("PROJ-1", "Task")])).2
          "t" "g" "2025-02-01" "2025-02-07" "later"
          [⟨"u1", "User", ""⟩]
          (fun _ => .ok [⟨some "PROJ-1", "2025-02-01", 3600, "w"⟩])
          (fun _ => some [])).1.members,
        ∃ e ∈ s.entries, e.issue_type = "Task") := by
  constructor
  · decide
  · decide

/-- C4, amended: the issue-type cache lives for the lifetime of the
TeamReportGenerator instance, not of one report: it starts empty at
construction, each generate_report call merges its batch-resolved types
into the existing instance cache, and a mapping from an earlier call that
this call's batch does not overwrite is still present afterwards. -/
theorem issue_type_cache_lifetime
    (st : GenState) (tn jg sd ed ga : String) (members : List TeamMemberInfo)
    (fetch : String → Except Unit (List RawWorklog))
    (search : List String → Option (List (String × String))) :
    initGenState.issue_type_cache = [] ∧
      (generateReport st tn jg sd ed ga members fetch search).2.issue_type_cache =
        updCache st.issue_type_cache
          (batch_get_issue_types search (memberWorklogsAndKeys fetch members).2) ∧
      (∀ k v, lookupA st.issue_type_cache k = some v →
        k ∉ (batch_get_issue_types search
          (memberWorklogsAndKeys fetch members).2).map Prod.fst →
        lookupA (generateReport st tn jg sd ed ga members fetch search).2.issue_type_cache k =
          some v) := by
  refine ⟨rfl, rfl, ?_⟩
  intro k v hv hnotin
  have hc : (generateReport st tn jg sd ed ga members fetch search).2.issue_type_cache =
      updCache st.issue_type_cache
        (batch_get_issue_types search (memberWorklogsAndKeys fetch members).2) := rfl
  rw [hc]
  unfold updCache
  rw [lookupA_foldl_setAssoc_notMem _ _ _ hnotin]
  exact hv

/-- C4 witness: a generator whose cache maps A to Task keeps that mapping
through a report over no members. -/
theorem issue_type_cache_lifetime_witness :
    lookupA ((⟨[("A", "Task")]⟩ : GenState).issue_type_cache) "A" = some "Task" ∧
      "A" ∉ (batch_get_issue_types (fun _ => none)
        (memberWorklogsAndKeys (fun _ => .error ()) []).2).map Prod.fst ∧
      lookupA (generateReport ⟨[("A", "Task")]⟩ "t" "g" "s" "e" "now" []
        (fun _ => .error ()) (fun _ => none)).2.issue_type_cache "A" = some "Task" :=
  ⟨by decide, by decide,
    (issue_type_cache_lifetime ⟨[("A", "Task")]⟩ "t" "g" "s" "e" "now" []
      (fun _ => .error ()) (fun _ => none)).2.2 "A" "Task" (by decide) (by decide)⟩

theorem fetchStep_fst (fetch : String → Except Unit (List RawWorklog))
    (acc : List (String × List RawWorklog) × List String) (m : TeamMemberInfo) :
    (fetchStep fetch acc m).1 =
      setAssoc acc.1 m.account_id ((fetch m.account_id).toOption.getD []) := by
  unfold fetchStep
  match h : fetch m.account_id with
  | .ok wls => simp [Except.toOption]
  | .error e => simp [Except.toOption]

theorem lookupA_fetchLoop_frame (fetch : String → Except Unit (List RawWorklog))
    (rest : List TeamMemberInfo) (acc : List (String × List RawWorklog) × List String)
    (id : String) (h : ∀ m2 ∈ rest, m2.account_id ≠ id) :
    lookupA (rest.foldl (fetchStep fetch) acc).1 id = lookupA acc.1 id := by
  induction rest generalizing acc with
  | nil => rfl
  | cons m0 tail ih =>
    simp only [List.foldl_cons]
    rw [ih _ (fun m2 h2 => h m2 (List.mem_cons_of_mem _ h2)), fetchStep_fst,
      lookupA_setAssoc_ne _ _ _ _ (fun hc => h m0 (List.mem_cons_self _ _) hc.symm)]

theorem lookupA_memberWorklogs (fetch : String → Except Unit (List RawWorklog))
    (members : List TeamMemberInfo) (m : TeamMemberInfo) (hm : m ∈ members)
    (hnd : (members.map (fun x => x.account_id)).Nodup) :
    lookupA (memberWorklogsAndKeys fetch members).1 m.account_id =
      some ((fetch m.account_id).toOption.getD []) := by
  have hgen : ∀ (ms : List TeamMemberInfo) acc, m ∈ ms →
      (ms.map (fun x => x.account_id)).Nodup →
      lookupA (ms.foldl (fetchStep fetch) acc).1 m.account_id =
        some ((fetch m.account_id).toOption.getD []) := by
    intro ms
    induction ms with
    | nil => intro acc hmem _; simp at hmem
    | cons m0 tail ih =>
      intro acc hmem hnd2
      simp only [List.map_cons, List.nodup_cons] at hnd2
      rcases List.mem_cons.mp hmem with hc | hc
      · subst hc
        simp only [List.foldl_cons]
        rw [lookupA_fetchLoop_frame fetch tail _ m.account_id
          (fun m2 h2 hc2 => hnd2.1 (hc2 ▸ List.mem_map_of_mem (fun x => x.account_id) h2)),
          fetchStep_fst, lookupA_setAssoc_self]
      · simp only [List.foldl_cons]
        exact ih _ hc hnd2.2
  exact hgen members ([], []) hm hnd

theorem processFold_member (cache : List (String × String)) (member : TeamMemberInfo)
    (wls : List RawWorklog) (s : MemberWorklogSummary) :
    (wls.foldl (processOneWorklog cache member) s).member = s.member := by
  induction wls generalizing s with
  | nil => rfl
  | cons wl rest ih => simpa [processOneWorklog] using ih _

/-- C5: team aggregation tolerates per-member failures.  For a roster
with pairwise-distinct account ids, every member appears in the generated
report exactly as the summary of what that member's fetch produced: a
member whose fetch raised is summarized from the empty list — present,
with no entries and zero seconds — while every other member is summarized
from their own fetched worklogs, so one failing member never aborts or
distorts the rest of the report. -/
theorem member_failures_isolated (st : GenState)
    (tn jg sd ed ga : String) (members : List TeamMemberInfo)
    (fetch : String → Except Unit (List RawWorklog))
    (search : List String → Option (List (String × String)))
    (hnd : (members.map (fun m => m.account_id)).Nodup) :
    ∀ m ∈ members,
      ∃ s ∈ (generateReport st tn jg sd ed ga members fetch search).1.members,
        s.member = m ∧
        s = processMemberWorklogs
            (updCache st.issue_type_cache
              (batch_get_issue_types search (memberWorklogsAndKeys fetch members).2))
            m ((fetch m.account_id).toOption.getD []) ∧
        (fetch m.account_id = .error () → s.entries = [] ∧ s.total_seconds = 0) := by
  intro m hm
  have hrep : (generateReport st tn jg sd ed ga members fetch search).1.members =
      stableSort (fun a b => b.total_seconds ≤ a.total_seconds)
        (members.map (fun x =>
          processMemberWorklogs
            (updCache st.issue_type_cache
              (batch_get_issue_types search (memberWorklogsAndKeys fetch members).2))
            x ((lookupA (memberWorklogsAndKeys fetch members).1 x.account_id).getD []))) := rfl
  refine ⟨processMemberWorklogs
      (updCache st.issue_type_cache
        (batch_get_issue_types search (memberWorklogsAndKeys fetch members).2))
      m ((fetch m.account_id).toOption.getD []), ?_, ?_, rfl, ?_⟩
  · rw [hrep, stableSort_mem]
    have harg : ((lookupA (memberWorklogsAndKeys fetch members).1 m.account_id).getD []) =
        (fetch m.account_id).toOption.getD [] := by
      rw [lookupA_memberWorklogs fetch members m hm hnd]
      rfl
    have hmem := List.mem_map_of_mem (fun x =>
      processMemberWorklogs
        (updCache st.issue_type_cache
          (batch_get_issue_types search (memberWorklogsAndKeys fetch members).2))
        x ((lookupA (memberWorklogsAndKeys fetch members).1 x.account_id).getD [])) hm
    rw [← harg]
    exact hmem
  · exact processFold_member _ _ _ _
  · intro herr
    rw [herr]
    exact ⟨rfl, rfl⟩

/-- C5 witness: of two members, the second member's fetch raises; the
report still contains a summary for that member, with no entries and zero
total seconds. -/
theorem member_failures_isolated_witness :
    (([⟨"u1", "A", ""⟩, ⟨"u2", "B", ""⟩] : List TeamMemberInfo).map
        (fun m => m.account_id)).Nodup ∧
      (∃ s ∈ (generateReport initGenState "t" "g" "s" "e" "now"
          [⟨"u1", "A", ""⟩, ⟨"u2", "B", ""⟩]
          (fun id => if id = "u1" then .ok [⟨some "PROJ-1", "2025-01-01", 3600, "w"⟩]
            else .error ())
          (fun _ => some [("PROJ-1", "Task")])).1.members,
        s.member = (⟨"u2", "B", ""⟩ : TeamMemberInfo) ∧
        s = processMemberWorklogs
            (updCache initGenState.issue_type_cache
              (batch_get_issue_types (fun _ => some [("PROJ-1", "Task")])
                (memberWorklogsAndKeys
                  (fun id => if id = "u1" then .ok [⟨some "PROJ-1", "2025-01-01", 3600, "w"⟩]
                    else .error ())
                  [⟨"u1", "A", ""⟩, ⟨"u2", "B", ""⟩]).2))
            ⟨"u2", "B", ""⟩
            (((fun (id : String) =>
                if id = "u1" then Except.ok [(⟨some "PROJ-1", "2025-01-01", 3600, "w"⟩ : RawWorklog)]
                else Except.error ()) "u2").toOption.getD []) ∧
        ((fun (id : String) =>
            if id = "u1" then Except.ok [(⟨some "PROJ-1", "2025-01-01", 3600, "w"⟩ : RawWorklog)]
            else Except.error ()) "u2" = .error () →
          s.entries = [] ∧ s.total_seconds = 0)) :=
  ⟨by decide,
    member_failures_isolated initGenState "t" "g" "s" "e" "now"
      [⟨"u1", "A", ""⟩, ⟨"u2", "B", ""⟩]
      (fun id => if id = "u1" then .ok [⟨some "PROJ-1", "2025-01-01", 3600, "w"⟩]
        else .error ())
      (fun _ => some [("PROJ-1", "Task")]) (by decide)
      ⟨"u2", "B", ""⟩ (by decide)⟩

theorem sum_div_3600 (l : List ℤ) :
    (l.map (fun x : ℤ => (x : ℚ) / 3600)).sum = ((l.sum : ℤ) : ℚ) / 3600 := by
  induction l with
  | nil => simp
  | cons v rest ih =>
    simp only [List.map_cons, List.sum_cons, ih]
    push_cast
    ring

theorem members_hours_sum (ms : List MemberWorklogSummary) :
    (ms.map (fun m => ((m.total_seconds : ℚ) / 3600))).sum =
      (((ms.map (fun m => m.total_seconds)).sum : ℤ) : ℚ) / 3600 := by
  rw [← sum_div_3600, List.map_map]
  rfl

theorem valuesSum_cons {κ β : Type} [AddCommMonoid β] (p : κ × β) (rest : List (κ × β)) :
    valuesSum (p :: rest) = p.2 + valuesSum rest := by
  simp [valuesSum]

theorem teamData_total_hours (r : TeamReportData) :
    r.total_hours = (r.members.map MemberWorklogSummary.total_hours).sum := by
  have heta : r.members.map MemberWorklogSummary.total_hours =
      r.members.map (fun m => ((m.total_seconds : ℚ) / 3600)) := rfl
  rw [heta, members_hours_sum]
  rfl

theorem processFold_sums (cache : List (String × String)) (member : TeamMemberInfo)
    (wls : List RawWorklog) (s : MemberWorklogSummary) :
    (wls.foldl (processOneWorklog cache member) s).total_seconds =
        s.total_seconds + (wls.map (fun wl => wl.timeSpentSeconds)).sum ∧
      ((wls.foldl (processOneWorklog cache member) s).entries.map
          (fun e => e.time_spent_seconds)) =
        s.entries.map (fun e => e.time_spent_seconds) ++
          wls.map (fun wl => wl.timeSpentSeconds) ∧
      valuesSum (wls.foldl (processOneWorklog cache member) s).by_issue_type =
        valuesSum s.by_issue_type + (wls.map (fun wl => wl.timeSpentSeconds)).sum ∧
      valuesSum (wls.foldl (processOneWorklog cache member) s).by_date =
        valuesSum s.by_date + (wls.map (fun wl => wl.timeSpentSeconds)).sum := by
  induction wls generalizing s with
  | nil => simp
  | cons wl rest ih =>
    obtain ⟨h1, h2, h3, h4⟩ := ih (processOneWorklog cache member s wl)
    have ht : (processOneWorklog cache member s wl).total_seconds =
        s.total_seconds + wl.timeSpentSeconds := rfl
    have he : (processOneWorklog cache member s wl).entries.map
        (fun e => e.time_spent_seconds) =
        s.entries.map (fun e => e.time_spent_seconds) ++ [wl.timeSpentSeconds] := by
      have hx : (processOneWorklog cache member s wl).entries = s.entries ++
          [{ issue_key := wl.issue_key.getD "Unknown"
             issue_type := (lookupA cache (wl.issue_key.getD "Unknown")).getD "Unknown"
             date := wl.startDate.take 10
             time_spent_seconds := wl.timeSpentSeconds
             description := wl.description
             author_id := member.account_id
             author_name := member.display_name }] := rfl
      rw [hx, List.map_append]
      rfl
    have hb1 : valuesSum (processOneWorklog cache member s wl).by_issue_type =
        valuesSum s.by_issue_type + wl.timeSpentSeconds := by
      have hx : (processOneWorklog cache member s wl).by_issue_type =
          addAssoc s.by_issue_type
            ((lookupA cache (wl.issue_key.getD "Unknown")).getD "Unknown")
            wl.timeSpentSeconds := rfl
      rw [hx, valuesSum_addAssoc]
    have hb2 : valuesSum (processOneWorklog cache member s wl).by_date =
        valuesSum s.by_date + wl.timeSpentSeconds := by
      have hx : (processOneWorklog cache member s wl).by_date =
          addAssoc s.by_date (wl.startDate.take 10) wl.timeSpentSeconds := rfl
      rw [hx, valuesSum_addAssoc]
    refine ⟨?_, ?_, ?_, ?_⟩
    · simp only [List.foldl_cons, List.map_cons, List.sum_cons]
      rw [h1, ht]
      ring
    · simp only [List.foldl_cons, List.map_cons]
      rw [h2, he, List.append_assoc]
      rfl
    · simp only [List.foldl_cons, List.map_cons, List.sum_cons]
      rw [h3, hb1]
      ring
    · simp only [List.foldl_cons, List.map_cons, List.sum_cons]
      rw [h4, hb2]
      ring

theorem processMember_sums (cache : List (String × String)) (member : TeamMemberInfo)
    (wls : List RawWorklog) :
    (processMemberWorklogs cache member wls).total_seconds =
        ((processMemberWorklogs cache member wls).entries.map
          (fun e => e.time_spent_seconds)).sum ∧
      valuesSum (processMemberWorklogs cache member wls).by_issue_type =
        (processMemberWorklogs cache member wls).total_seconds ∧
      valuesSum (processMemberWorklogs cache member wls).by_date =
        (processMemberWorklogs cache member wls).total_seconds := by
  obtain ⟨h1, h2, h3, h4⟩ := processFold_sums cache member wls ⟨member, 0, [], [], [], []⟩
  unfold processMemberWorklogs
  refine ⟨?_, ?_, ?_⟩
  · rw [h1, h2]
    simp [valuesSum]
  · rw [h3, h1]
    simp [valuesSum]
  · rw [h4, h1]
    simp [valuesSum]

theorem qfold_inner (pairs : List (String × ℤ)) (t : List (String × ℚ)) :
    valuesSum (pairs.foldl (fun t kv => addAssoc t kv.1 ((kv.2 : ℚ) / 3600)) t) =
      valuesSum t + ((valuesSum pairs : ℤ) : ℚ) / 3600 := by
  induction pairs generalizing t with
  | nil => simp [valuesSum]
  | cons kv rest ih =>
    simp only [List.foldl_cons, ih, valuesSum_addAssoc, valuesSum_cons]
    push_cast
    ring

theorem qfold_outer (f : MemberWorklogSummary → List (String × ℤ))
    (ms : List MemberWorklogSummary) (t : List (String × ℚ)) :
    valuesSum (ms.foldl
        (fun totals m => (f m).foldl (fun t kv => addAssoc t kv.1 ((kv.2 : ℚ) / 3600)) totals)
        t) =
      valuesSum t + (ms.map (fun m => ((valuesSum (f m) : ℤ) : ℚ) / 3600)).sum := by
  induction ms generalizing t with
  | nil => simp
  | cons m rest ih =>
    simp only [List.foldl_cons, ih, qfold_inner, List.map_cons, List.sum_cons]
    ring

theorem teamData_breakdown_total (r : TeamReportData)
    (htype : ∀ s ∈ r.members, valuesSum s.by_issue_type = s.total_seconds)
    (hdate : ∀ s ∈ r.members, valuesSum s.by_date = s.total_seconds) :
    valuesSum r.by_issue_type_total = r.total_hours ∧
      valuesSum r.by_date_total = r.total_hours := by
  constructor
  · unfold TeamReportData.by_issue_type_total
    rw [qfold_outer (fun m => m.by_issue_type) r.members []]
    have hmapeq : r.members.map (fun m => ((valuesSum m.by_issue_type : ℤ) : ℚ) / 3600) =
        r.members.map (fun m => ((m.total_seconds : ℚ) / 3600)) :=
      List.map_congr_left (fun s hs => by rw [htype s hs])
    rw [hmapeq, members_hours_sum]
    unfold TeamReportData.total_hours
    simp [valuesSum]
  · unfold TeamReportData.by_date_total
    rw [qfold_outer (fun m => m.by_date) r.members []]
    have hmapeq : r.members.map (fun m => ((valuesSum m.by_date : ℤ) : ℚ) / 3600) =
        r.members.map (fun m => ((m.total_seconds : ℚ) / 3600)) :=
      List.map_congr_left (fun s hs => by rw [hdate s hs])
    rw [hmapeq, members_hours_sum]
    unfold TeamReportData.total_hours
    simp [valuesSum]

/-- C6: report totals are consistent at every level for every report
generate_report builds: the team's total hours equal the sum of the
members' total hours; each member summary's total seconds equal the sum
of its entries' seconds; and the by-issue-type and by-date breakdowns
each sum (across all members) to the same grand total as total_hours. -/
theorem report_totals_consistent (st : GenState)
    (tn jg sd ed ga : String) (members : List TeamMemberInfo)
    (fetch : String → Except Unit (List RawWorklog))
    (search : List String → Option (List (String × String))) :
    (generateReport st tn jg sd ed ga members fetch search).1.total_hours =
        ((generateReport st tn jg sd ed ga members fetch search).1.members.map
          MemberWorklogSummary.total_hours).sum ∧
      (∀ s ∈ (generateReport st tn jg sd ed ga members fetch search).1.members,
        s.total_seconds = (s.entries.map (fun e => e.time_spent_seconds)).sum) ∧
      valuesSum (generateReport st tn jg sd ed ga members fetch search).1.by_issue_type_total =
        (generateReport st tn jg sd ed ga members fetch search).1.total_hours ∧
      valuesSum (generateReport st tn jg sd ed ga members fetch search).1.by_date_total =
        (generateReport st tn jg sd ed ga members fetch search).1.total_hours := by
  have hmem : ∀ s ∈ (generateReport st tn jg sd ed ga members fetch search).1.members,
      ∃ m wls cache, s = processMemberWorklogs cache m wls := by
    intro s hs
    have hrep : (generateReport st tn jg sd ed ga members fetch search).1.members =
        stableSort (fun a b => b.total_seconds ≤ a.total_seconds)
          (members.map (fun x =>
            processMemberWorklogs
              (updCache st.issue_type_cache
                (batch_get_issue_types search (memberWorklogsAndKeys fetch members).2))
              x ((lookupA (memberWorklogsAndKeys fetch members).1 x.account_id).getD []))) := rfl
    rw [hrep, stableSort_mem] at hs
    obtain ⟨m, _, hsm⟩ := List.mem_map.mp hs
    exact ⟨m, _, _, hsm.symm⟩
  have hbd := teamData_breakdown_total
    (generateReport st tn jg sd ed ga members fetch search).1
    (fun s hs => by
      obtain ⟨m, wls, cache, rfl⟩ := hmem s hs
      exact (processMember_sums cache m wls).2.1)
    (fun s hs => by
      obtain ⟨m, wls, cache, rfl⟩ := hmem s hs
      exact (processMember_sums cache m wls).2.2)
  refine ⟨teamData_total_hours _, ?_, hbd.1, hbd.2⟩
  intro s hs
  obtain ⟨m, wls, cache, rfl⟩ := hmem s hs
  exact (processMember_sums cache m wls).1

/-- C6 witness (spec example D): two members with 7200 and 3600 seconds;
each summary's total matches its entries, and the member seconds sum to
10800 (3 hours). -/
theorem report_totals_consistent_witness :
    (∀ s ∈ (generateReport initGenState "t" "g" "s" "e" "now"
        [⟨"u1", "A", ""⟩, ⟨"u2", "B", ""⟩]
        (fun id => if id = "u1" then .ok [⟨some "P-1", "2025-01-01", 7200, "w"⟩]
          else .ok [⟨some "P-2", "2025-01-02", 3600, "w"⟩])
        (fun _ => none)).1.members,
      s.total_seconds = (s.entries.map (fun e => e.time_spent_seconds)).sum) ∧
    ((generateReport initGenState "t" "g" "s" "e" "now"
        [⟨"u1", "A", ""⟩, ⟨"u2", "B", ""⟩]
        (fun id => if id = "u1" then .ok [⟨some "P-1", "2025-01-01", 7200, "w"⟩]
          else .ok [⟨some "P-2", "2025-01-02", 3600, "w"⟩])
        (fun _ => none)).1.members.map (fun m => m.total_seconds)).sum = 10800 :=
  ⟨(report_totals_consistent initGenState "t" "g" "s" "e" "now"
      [⟨"u1", "A", ""⟩, ⟨"u2", "B", ""⟩]
      (fun id => if id = "u1" then .ok [⟨some "P-1", "2025-01-01", 7200, "w"⟩]
        else .ok [⟨some "P-2", "2025-01-02", 3600, "w"⟩])
      (fun _ => none)).2.1,
    by decide⟩

theorem mem_dedupFirst {α : Type} [DecidableEq α] (l : List α) (y : α) :
    y ∈ dedupFirst l ↔ y ∈ l := by
  induction l with
  | nil => simp [dedupFirst]
  | cons x xs ih =>
    simp only [dedupFirst, List.mem_cons, List.mem_filter]
    constructor
    · rintro (h | ⟨h1, _⟩)
      · exact Or.inl h
      · exact Or.inr (ih.mp h1)
    · rintro (h | h)
      · exact Or.inl h
      · by_cases hyx : y = x
        · exact Or.inl hyx
        · exact Or.inr ⟨ih.mpr h, by simpa using hyx⟩

theorem dedupFirst_nodup {α : Type} [DecidableEq α] (l : List α) :
    (dedupFirst l).Nodup := by
  induction l with
  | nil => simp [dedupFirst]
  | cons x xs ih =>
    simp only [dedupFirst, List.nodup_cons]
    constructor
    · intro hmem
      rw [List.mem_filter] at hmem
      simp at hmem
    · exact ih.filter _

/-- C3 counterexample: aggregation is not order-independent.  Two
sessions of one project on one date with different summary texts produce
different ProjectSummary output when their input order is swapped (the
daily entry's summaries list follows input order), although the two
inputs are permutations of each other. -/
theorem aggregation_not_order_independent :
    (WeeklyWorklog.mk "d1" "d2"
        [⟨"/p", "p", "sid", 0, 600, 10, "2025-01-01", ["a"], [], none⟩,
          ⟨"/p", "p", "sid", 0, 600, 10, "2025-01-01", ["b"], [], none⟩]).sessions.Perm
      (WeeklyWorklog.mk "d1" "d2"
        [⟨"/p", "p", "sid", 0, 600, 10, "2025-01-01", ["b"], [], none⟩,
          ⟨"/p", "p", "sid", 0, 600, 10, "2025-01-01", ["a"], [], none⟩]).sessions ∧
      WeeklyWorklog.get_project_summaries (WeeklyWorklog.mk "d1" "d2"
          [⟨"/p", "p", "sid", 0, 600, 10, "2025-01-01", ["a"], [], none⟩,
            ⟨"/p", "p", "sid", 0, 600, 10, "2025-01-01", ["b"], [], none⟩]) ≠
        WeeklyWorklog.get_project_summaries (WeeklyWorklog.mk "d1" "d2"
          [⟨"/p", "p", "sid", 0, 600, 10, "2025-01-01", ["b"], [], none⟩,
            ⟨"/p", "p", "sid", 0, 600, 10, "2025-01-01", ["a"], [], none⟩]) := by
  constructor
  · exact List.Perm.swap _ _ _
  · decide

/-- C3, amended: aggregation is idempotent (it is a pure function of the
session list, so re-running it on the same list yields identical output),
and a permutation of the input preserves the worklog's total minutes and
the multiset of (project name, total minutes) pairs of the output — but
not the full ProjectSummary output (see the counterexample: project_path,
daily-entry order and summary order follow input order). -/
theorem aggregation_idempotent_and_total_invariant (w w2 : WeeklyWorklog)
    (hp : w.sessions.Perm w2.sessions) :
    WeeklyWorklog.get_project_summaries w = WeeklyWorklog.get_project_summaries w ∧
      w.total_minutes = w2.total_minutes ∧
      ((WeeklyWorklog.get_project_summaries w).map
          (fun p => (p.project_name, p.total_minutes))).Perm
        ((WeeklyWorklog.get_project_summaries w2).map
          (fun p => (p.project_name, p.total_minutes))) := by
  have h1 : ∀ ww : WeeklyWorklog,
      ((WeeklyWorklog.get_project_summaries ww).map
          (fun p => (p.project_name, p.total_minutes))).Perm
        ((dedupFirst (ww.sessions.map (fun s => s.project_name))).map
          (fun pn => (pn, ((sessionsFor ww.sessions pn).map
            (fun s => s.duration_minutes)).sum))) := by
    intro ww
    have hsp := stableSort_perm (fun a b => decide (b.total_minutes ≤ a.total_minutes))
      ((dedupFirst (ww.sessions.map (fun s => s.project_name))).map
        (mkProjectSummary ww.sessions))
    have hmap := hsp.map (fun p => (p.project_name, p.total_minutes))
    rw [List.map_map] at hmap
    exact hmap
  have h2 : ∀ pn, ((sessionsFor w.sessions pn).map (fun s => s.duration_minutes)).sum =
      ((sessionsFor w2.sessions pn).map (fun s => s.duration_minutes)).sum := by
    intro pn
    exact List.Perm.sum_eq ((hp.filter _).map _)
  have h3 : (dedupFirst (w.sessions.map (fun s => s.project_name))).Perm
      (dedupFirst (w2.sessions.map (fun s => s.project_name))) := by
    rw [List.perm_ext_iff_of_nodup (dedupFirst_nodup _) (dedupFirst_nodup _)]
    intro a
    rw [mem_dedupFirst, mem_dedupFirst]
    exact (hp.map _).mem_iff
  refine ⟨rfl, List.Perm.sum_eq (hp.map _), ?_⟩
  refine (h1 w).trans (.trans ?_ (h1 w2).symm)
  have hcongr : (dedupFirst (w.sessions.map (fun s => s.project_name))).map
      (fun pn => (pn, ((sessionsFor w.sessions pn).map (fun s => s.duration_minutes)).sum)) =
      (dedupFirst (w.sessions.map (fun s => s.project_name))).map
      (fun pn => (pn, ((sessionsFor w2.sessions pn).map (fun s => s.duration_minutes)).sum)) :=
    List.map_congr_left (fun pn _ => by rw [h2 pn])
  rw [hcongr]
  exact h3.map _

/-- C3 witness: for the two session orders of the counterexample input,
per-project totals and the worklog total are preserved. -/
theorem aggregation_idempotent_and_total_invariant_witness :
    (WeeklyWorklog.mk "d1" "d2"
        [⟨"/p", "p", "sid", 0, 600, 10, "2025-01-01", ["a"], [], none⟩,
          ⟨"/q", "q", "sid", 0, 900, 15, "2025-01-01", ["b"], [], none⟩]).sessions.Perm
      (WeeklyWorklog.mk "d1" "d2"
        [⟨"/q", "q", "sid", 0, 900, 15, "2025-01-01", ["b"], [], none⟩,
          ⟨"/p", "p", "sid", 0, 600, 10, "2025-01-01", ["a"], [], none⟩]).sessions ∧
      ((WeeklyWorklog.mk "d1" "d2"
          [⟨"/p", "p", "sid", 0, 600, 10, "2025-01-01", ["a"], [], none⟩,
            ⟨"/q", "q", "sid", 0, 900, 15, "2025-01-01", ["b"], [], none⟩]).total_minutes =
        (WeeklyWorklog.mk "d1" "d2"
          [⟨"/q", "q", "sid", 0, 900, 15, "2025-01-01", ["b"], [], none⟩,
            ⟨"/p", "p", "sid", 0, 600, 10, "2025-01-01", ["a"], [], none⟩]).total_minutes ∧
        ((WeeklyWorklog.get_project_summaries (WeeklyWorklog.mk "d1" "d2"
            [⟨"/p", "p", "sid", 0, 600, 10, "2025-01-01", ["a"], [], none⟩,
              ⟨"/q", "q", "sid", 0, 900, 15, "2025-01-01", ["b"], [], none⟩])).map
            (fun p => (p.project_name, p.total_minutes))).Perm
          ((WeeklyWorklog.get_project_summaries (WeeklyWorklog.mk "d1" "d2"
            [⟨"/q", "q", "sid", 0, 900, 15, "2025-01-01", ["b"], [], none⟩,
              ⟨"/p", "p", "sid", 0, 600, 10, "2025-01-01", ["a"], [], none⟩])).map
            (fun p => (p.project_name, p.total_minutes)))) :=
  ⟨List.Perm.swap _ _ _,
    (aggregation_idempotent_and_total_invariant
      (WeeklyWorklog.mk "d1" "d2"
        [⟨"/p", "p", "sid", 0, 600, 10, "2025-01-01", ["a"], [], none⟩,
          ⟨"/q", "q", "sid", 0, 900, 15, "2025-01-01", ["b"], [], none⟩])
      (WeeklyWorklog.mk "d1" "d2"
        [⟨"/q", "q", "sid", 0, 900, 15, "2025-01-01", ["b"], [], none⟩,
          ⟨"/p", "p", "sid", 0, 600, 10, "2025-01-01", ["a"], [], none⟩])
      (List.Perm.swap _ _ _)).2⟩
